import Mathlib

/-!
A shallow embedding of the `@chamie/re-call` single-slot invocation cache
(`src/index.ts`, `src/utils.ts`, `src/types.ts`).

JavaScript values are modelled by `ReCall.JSValue`: primitives carry their
value, composite values are references into an explicit heap of dense
arrays (argument snapshots and the nested arrays appearing in them are the
only composite shapes the development needs), and callables are opaque
identities.  Numbers are modelled as integers, so `Object.is` and `===`
coincide on modelled values (in JavaScript they differ only on `NaN` and
signed zeros, which nothing here involves).

The engine `_reCall`, the strategy `shallowEqual`, the argument parser
`parseRestParams` and the exported entry points are translated directly
from the source.  The third-party `fast-deep-equal` comparator used by the
`deep` entry points is not part of the repository; see `deepEqual` below.
-/

namespace ReCall

/-- A JavaScript value as the cache engine observes it.  `obj` is a
reference into the heap (an array / composite value), `fn` an opaque
function identity, `global` the `globalThis` value. -/
inductive JSValue where
  | undefined
  | null
  | bool (b : Bool)
  | num (n : Int)
  | str (s : String)
  | obj (addr : Nat)
  | fn (id : Nat)
  | global
deriving DecidableEq, Repr

/-- The heap: address `a` holds the dense array stored at `a`. -/
abbrev Heap := List (List JSValue)

/-- JavaScript strict equality `===` on the modelled values: reference
identity on objects and functions, value equality on primitives.  With
integer numerics this is also the model of `Object.is`. -/
def strictEq (a b : JSValue) : Bool := decide (a = b)

/-- JavaScript truthiness of a modelled value (used by the `||` chain that
resolves the bound context). -/
def truthy : JSValue → Bool
  | .undefined => false
  | .null => false
  | .bool b => b
  | .num n => decide (n ≠ 0)
  | .str s => decide (s ≠ "")
  | _ => true

/-- Models the test `typeof v === 'object'`; note that in JavaScript
`typeof null` is `'object'` while functions are `'function'`. -/
def typeofObject : JSValue → Bool
  | .null => true
  | .obj _ => true
  | .global => true
  | _ => false

/-- A pluggable equality strategy.  The real comparator receives only the
two values and dereferences them itself; the explicit `Heap` argument is
the model of that dereferencing. -/
abbrev Comparator := Heap → JSValue → JSValue → Bool

/-- The default strategy `Object.is` (reference identity of the whole
argument list). -/
def objectIs : Comparator := fun _ a b => strictEq a b

/-- `shallowEqual` from `src/utils.ts`.  For two distinct references to
dense arrays, `Object.keys` yields the index lists, which have equal
length iff the arrays do, and every index is an own property of a dense
array, so the key loop reduces to the element count check plus pairwise
`===`.  Comparisons in which a valid side is not an array reference
(e.g. `globalThis`, or a dangling address, which real programs cannot
produce) fall to the final catch-all. -/
def shallowEqual : Comparator := fun h prev next =>
  if strictEq prev next then true
  else if !typeofObject prev || !typeofObject next
       || strictEq prev .null || strictEq next .null then false
  else
    match prev, next with
    | .obj i, .obj j =>
      match h[i]?, h[j]? with
      | some prevArr, some nextArr =>
        if prevArr.length = nextArr.length then
          (prevArr.zip nextArr).all fun q => strictEq q.1 q.2
        else false
      | _, _ => false
    | _, _ => false

/-- Modelled from the spec: the Deep strategy is the third-party
`fast-deep-equal` package imported in `src/index.ts`; its implementation
is not part of this repository.  The spec describes it as recursive
structural equality, modelled here with explicit fuel. -/
def deepEqualFuel : Nat → Heap → JSValue → JSValue → Bool
  | 0, _, _, _ => false
  | fuel + 1, h, a, b =>
    if strictEq a b then true
    else
      match a, b with
      | .obj i, .obj j =>
        match h[i]?, h[j]? with
        | some xs, some ys =>
          decide (xs.length = ys.length)
          && ((xs.zip ys).all fun q => deepEqualFuel fuel h q.1 q.2)
        | _, _ => false
      | _, _ => false

/-- Modelled from the spec: the comparator bound by the `deep` entry
points (see `deepEqualFuel`). -/
def deepEqual : Comparator := fun h a b => deepEqualFuel (h.length + 1) h a b

/-- The caller-supplied options object, `Partial<ReCallOptions>` from
`src/types.ts`.  An absent comparator (`none`) means the spread with
`defaultOptions` leaves `Object.is` in place.  For the two context fields
the default is `undefined`, so a present-but-`undefined` field and an
absent field are indistinguishable after the spread and are both modelled
as `.undefined`. -/
structure PartialOptions where
  this : JSValue := .undefined
  thisArg : JSValue := .undefined
  comparator : Option Comparator := none

/-- The fully merged options record (`ReCallOptions`). -/
structure ReCallOptions where
  this : JSValue
  thisArg : JSValue
  comparator : Comparator

/-- `defaultOptions` from `src/index.ts`. -/
def defaultOptions : ReCallOptions :=
  { this := .undefined, thisArg := .undefined, comparator := objectIs }

/-- The spread `{ ...defaultOptions, ...options }` at the top of
`_reCall`. -/
def resolveOptions (o : PartialOptions) : ReCallOptions :=
  { this := o.this, thisArg := o.thisArg,
    comparator := o.comparator.getD objectIs }

/-- The context resolution `thisContext || thisArg || globalThis`:
JavaScript `||` yields its first truthy operand, else its last operand. -/
def resolveThis (o : ReCallOptions) : JSValue :=
  if truthy o.this then o.this
  else if truthy o.thisArg then o.thisArg
  else .global

/-- The value stored per callable: `{ result, params, thisArg }`. -/
structure CacheRecord where
  result : JSValue
  params : JSValue
  thisArg : JSValue
deriving DecidableEq, Repr

/-- The `WeakMap<Function, ...>` keyed by callable identity, modelled as
an association list over the opaque function ids.  (Weakness of the keys
is a garbage-collection property outside the embedding.) -/
abbrev Cache := List (Nat × CacheRecord)

/-- `WeakMap.prototype.get`. -/
def cacheGet : Cache → Nat → Option CacheRecord
  | [], _ => none
  | (k, r) :: rest, id => if k = id then some r else cacheGet rest id

/-- `WeakMap.prototype.set`: replace in place or insert. -/
def cacheSet : Cache → Nat → CacheRecord → Cache
  | [], id, r => [(id, r)]
  | (k, r0) :: rest, id, r =>
    if k = id then (k, r) :: rest else (k, r0) :: cacheSet rest id r

/-- `WeakMap.prototype.delete`. -/
def cacheDelete : Cache → Nat → Cache
  | [], _ => []
  | (k, r0) :: rest, id =>
    if k = id then rest else (k, r0) :: cacheDelete rest id

/-- The mutable process state the module closes over: the cache plus the
JavaScript heap holding every argument array. -/
structure EngineState where
  cache : Cache
  heap : Heap
deriving DecidableEq, Repr

/-- A callable: identity (the cache key), declared parameter count
(`fn.length`, consulted by `parseRestParams`), and behavior.  The
behavior receives the resolved `this` value, the argument snapshot and
the heap, and either throws a value or returns a result together with
the arrays it allocated (a JavaScript call never deallocates, so the
heap only grows). -/
structure Callable where
  id : Nat
  arity : Nat
  impl : JSValue → JSValue → Heap → Except JSValue (JSValue × List (List JSValue))

deriving instance DecidableEq for Except

/-- The observable outcome of one engine call: the returned-or-thrown
value, the state afterwards, and the list of invocations of the
underlying callable (each with the `this` value and the snapshot it
received) — empty exactly on a cache hit. -/
structure CallOutcome where
  result : Except JSValue JSValue
  state : EngineState
  calls : List (JSValue × JSValue)
deriving DecidableEq, Repr

/-- The miss path of `_reCall`: `fn.apply(thisValue, params)` followed by
`cache.set(fn, { result, params, thisArg: thisValue })` on success; on a
throw the exception propagates before the `set` line is reached. -/
def invokeAndStore (fn : Callable) (params thisValue : JSValue)
    (st : EngineState) : CallOutcome :=
  match fn.impl thisValue params st.heap with
  | .error e => ⟨.error e, st, [(thisValue, params)]⟩
  | .ok (result, allocs) =>
    ⟨.ok result,
     ⟨cacheSet st.cache fn.id ⟨result, params, thisValue⟩,
      st.heap ++ allocs⟩,
     [(thisValue, params)]⟩

/-- `_reCall` from `src/index.ts`, the cache engine: spread the options
over the defaults, resolve the context, then either return the cached
result (when a record exists, the comparator accepts the stored snapshot
against the new one, and the stored context is `===` to the resolved one)
or invoke and store. -/
def _reCall (fn : Callable) (params : JSValue) (options : PartialOptions)
    (st : EngineState) : CallOutcome :=
  match cacheGet st.cache fn.id with
  | some cacheData =>
    if (resolveOptions options).comparator st.heap cacheData.params params
       && strictEq cacheData.thisArg (resolveThis (resolveOptions options)) then
      ⟨.ok cacheData.result, st, []⟩
    else invokeAndStore fn params (resolveThis (resolveOptions options)) st
  | none => invokeAndStore fn params (resolveThis (resolveOptions options)) st

/-- One entry of the variadic `rest` array at the façade boundary: an
argument array (by reference), an options object, or `null`/`undefined`. -/
inductive RestEntry where
  | arr (v : JSValue)
  | optObj (o : PartialOptions)
  | nullish

/-- What a value landing in the options slot contributes after
`?? {}` and the spread with `defaultOptions`: an options object passes
through; `null`/`undefined` is replaced by `{}`; an array spread over the
defaults contributes only numeric keys, leaving all three named fields at
their defaults. -/
def entryToOptions : RestEntry → PartialOptions
  | .optObj o => o
  | _ => {}

/-- `parseRestParams` from `src/utils.ts`.  For a declared zero-argument
callable the params slot is a freshly allocated `[]` (a new array object
on every call) and the first rest entry — whatever it is — lands in the
options slot.  Otherwise the first entry is the argument array (with
`?? []` allocating a fresh empty array when it is nullish) and the second
entry is the options.  The one shape left out of the model is an options
object in the argument position of a nonzero-arity callable (the source
would pass the object itself as `params`); options records have no heap
identity here and no claim involves that shape, so it yields `none`. -/
def parseRestParams (fn : Callable) (rest : List RestEntry) (h : Heap) :
    Option (JSValue × PartialOptions × Heap) :=
  let paramsOrOptions := rest[0]?.getD .nullish
  let maybeOptions := rest[1]?.getD .nullish
  if fn.arity = 0 then
    some (.obj h.length, entryToOptions paramsOrOptions, h ++ [[]])
  else
    match paramsOrOptions with
    | .arr v => some (v, entryToOptions maybeOptions, h)
    | .nullish => some (.obj h.length, entryToOptions maybeOptions, h ++ [[]])
    | .optObj _ => none

/-- `byRef`: parse, then call the engine with the options as given. -/
def byRef (fn : Callable) (rest : List RestEntry) (st : EngineState) :
    Option CallOutcome :=
  (parseRestParams fn rest st.heap).map fun pr =>
    _reCall fn pr.1 pr.2.1 ⟨st.cache, pr.2.2⟩

/-- `shallow`: parse, then call the engine with
`{ ...options, comparator: shallowEqual }`. -/
def shallow (fn : Callable) (rest : List RestEntry) (st : EngineState) :
    Option CallOutcome :=
  (parseRestParams fn rest st.heap).map fun pr =>
    _reCall fn pr.1 { pr.2.1 with comparator := some shallowEqual }
      ⟨st.cache, pr.2.2⟩

/-- `deep`: parse, then call the engine with
`{ ...options, comparator: deepEqual }`. -/
def deep (fn : Callable) (rest : List RestEntry) (st : EngineState) :
    Option CallOutcome :=
  (parseRestParams fn rest st.heap).map fun pr =>
    _reCall fn pr.1 { pr.2.1 with comparator := some deepEqual }
      ⟨st.cache, pr.2.2⟩

/-- One invocation of the callable returned by `wrap(fn, options?)`: the
rest parameter gathers the caller's arguments into a freshly allocated
array, and the engine is called with `options ?? {}`. -/
def wrap (fn : Callable) (options : Option PartialOptions)
    (args : List JSValue) (st : EngineState) : CallOutcome :=
  _reCall fn (.obj st.heap.length) (options.getD {})
    ⟨st.cache, st.heap ++ [args]⟩

/-- One invocation of the callable returned by `wrapShallow(fn)` (which
accepts no options): the engine is called with
`{ comparator: shallowEqual }`. -/
def wrapShallow (fn : Callable) (args : List JSValue) (st : EngineState) :
    CallOutcome :=
  _reCall fn (.obj st.heap.length) { comparator := some shallowEqual }
    ⟨st.cache, st.heap ++ [args]⟩

/-- One invocation of the callable returned by `wrapDeep(fn)`. -/
def wrapDeep (fn : Callable) (args : List JSValue) (st : EngineState) :
    CallOutcome :=
  _reCall fn (.obj st.heap.length) { comparator := some deepEqual }
    ⟨st.cache, st.heap ++ [args]⟩

/-- `clearOne`. -/
def clearOne (st : EngineState) (fnId : Nat) : EngineState :=
  ⟨cacheDelete st.cache fnId, st.heap⟩

/-- `peek`: the cached result, or `undefined`. -/
def peek (st : EngineState) (fnId : Nat) : JSValue :=
  match cacheGet st.cache fnId with
  | some cacheData => cacheData.result
  | none => .undefined

/-- `hasCache`. -/
def hasCache (st : EngineState) (fnId : Nat) : Bool :=
  (cacheGet st.cache fnId).isSome

/-- `clearAll`: the whole map is replaced by a fresh empty one. -/
def clearAll (st : EngineState) : EngineState :=
  ⟨[], st.heap⟩

/-! ### Concrete fixtures used by the witnesses and counterexamples -/

/-- The length of the array a value refers to (how many arguments a
callable invoked with that snapshot receives). -/
def arrLen (h : Heap) (v : JSValue) : Nat :=
  match v with
  | .obj a => (h[a]?.getD []).length
  | _ => 0

/-- A unary callable that returns `42` and allocates nothing. -/
def fConst : Callable := ⟨0, 1, fun _ _ _ => .ok (.num 42, [])⟩

/-- A zero-parameter callable that returns `7`. -/
def fZero : Callable := ⟨1, 0, fun _ _ _ => .ok (.num 7, [])⟩

/-- A unary callable that always throws. -/
def fThrow : Callable := ⟨2, 1, fun _ _ _ => .error (.str "boom")⟩

/-- A zero-parameter callable whose result reports how many arguments it
actually received. -/
def fCount : Callable := ⟨4, 0, fun _ p h => .ok (.num (Int.ofNat (arrLen h p)), [])⟩

/-- The pristine process state: empty cache, empty heap. -/
def st0 : EngineState := ⟨[], []⟩

/-- A state holding a record for callable `0` cached under snapshot
`.obj 0 = [1]`, with a second array `[2]` on the heap. -/
def stD : EngineState := ⟨[(0, ⟨.num 42, .obj 0, .global⟩)], [[.num 1], [.num 2]]⟩

/-- A caller-supplied options object carrying a comparator that deems
every pair of snapshots equal. -/
def alwaysTrue : PartialOptions := { comparator := some fun _ _ _ => true }

/-! ### Helper lemmas about the cache map and the engine -/

theorem cacheGet_set_self (c : Cache) (id : Nat) (r : CacheRecord) :
    cacheGet (cacheSet c id r) id = some r := by
  induction c with
  | nil => simp [cacheSet, cacheGet]
  | cons p rest ih =>
    obtain ⟨k, r0⟩ := p
    by_cases h : k = id
    · simp [cacheSet, h, cacheGet]
    · simp [cacheSet, h, cacheGet, ih]

theorem cacheGet_set_ne (c : Cache) (id g : Nat) (r : CacheRecord)
    (h : g ≠ id) : cacheGet (cacheSet c id r) g = cacheGet c g := by
  induction c with
  | nil => simp [cacheSet, cacheGet, Ne.symm h]
  | cons p rest ih =>
    obtain ⟨k, r0⟩ := p
    by_cases hk : k = id
    · subst hk
      simp [cacheSet, cacheGet, Ne.symm h]
    · simp [cacheSet, hk, cacheGet, ih]

/-- The boolean cache-hit condition of `_reCall`, verbatim. -/
def hitCond (fn : Callable) (params : JSValue) (options : PartialOptions)
    (st : EngineState) : Bool :=
  match cacheGet st.cache fn.id with
  | some cacheData =>
    (resolveOptions options).comparator st.heap cacheData.params params
      && strictEq cacheData.thisArg (resolveThis (resolveOptions options))
  | none => false

theorem invokeAndStore_calls (fn : Callable) (p tv : JSValue)
    (st : EngineState) : (invokeAndStore fn p tv st).calls = [(tv, p)] := by
  unfold invokeAndStore
  cases h : fn.impl tv p st.heap with
  | error e => rfl
  | ok pr => obtain ⟨res, al⟩ := pr; rfl

theorem reCall_of_hit (fn : Callable) (p : JSValue) (o : PartialOptions)
    (st : EngineState) (h : hitCond fn p o st = true) :
    ∃ r, cacheGet st.cache fn.id = some r ∧
      _reCall fn p o st = ⟨.ok r.result, st, []⟩ := by
  unfold hitCond at h
  cases hc : cacheGet st.cache fn.id with
  | none => rw [hc] at h; simp at h
  | some r =>
    rw [hc] at h
    have hb : ((resolveOptions o).comparator st.heap r.params p
        && strictEq r.thisArg (resolveThis (resolveOptions o))) = true := h
    refine ⟨r, rfl, ?_⟩
    unfold _reCall
    simp [hc, hb]

theorem reCall_of_miss (fn : Callable) (p : JSValue) (o : PartialOptions)
    (st : EngineState) (h : hitCond fn p o st = false) :
    _reCall fn p o st
      = invokeAndStore fn p (resolveThis (resolveOptions o)) st := by
  unfold hitCond at h
  unfold _reCall
  cases hc : cacheGet st.cache fn.id with
  | none => simp
  | some r =>
    rw [hc] at h
    have hb : ((resolveOptions o).comparator st.heap r.params p
        && strictEq r.thisArg (resolveThis (resolveOptions o))) = false := h
    simp [hb]

theorem hitCond_true_iff (fn : Callable) (p : JSValue) (o : PartialOptions)
    (st : EngineState) :
    hitCond fn p o st = true ↔
      ∃ r, cacheGet st.cache fn.id = some r ∧
        (resolveOptions o).comparator st.heap r.params p = true ∧
        r.thisArg = resolveThis (resolveOptions o) := by
  unfold hitCond
  cases hc : cacheGet st.cache fn.id with
  | none => simp
  | some r => simp [strictEq]

theorem reCall_calls_empty_iff (fn : Callable) (p : JSValue)
    (o : PartialOptions) (st : EngineState) :
    (_reCall fn p o st).calls = [] ↔ hitCond fn p o st = true := by
  constructor
  · intro h
    by_contra hfalse
    have hmiss : hitCond fn p o st = false := by
      cases hh : hitCond fn p o st
      · rfl
      · exact absurd hh hfalse
    rw [reCall_of_miss fn p o st hmiss, invokeAndStore_calls] at h
    exact absurd h (by simp)
  · intro h
    obtain ⟨r, _, hr⟩ := reCall_of_hit fn p o st h
    rw [hr]

/-! ### Claim theorems -/

/-- C1: an engine call is a cache hit — the callable is not invoked —
iff a record for the callable exists, the resolved comparator accepts
(stored snapshot, new snapshot), and the stored bound context is
identity-equal to the resolved bound context; on a hit the stored result
is returned and the state is left untouched; and, starting from a state
with no record for the callable, a successful call followed by a call
with a comparator-equal snapshot and the same options invokes the
callable exactly once across the two calls, the second call returning
the first call's result. -/
theorem claim1_hit_iff_and_single_invoke
    (fn : Callable) (p : JSValue) (o : PartialOptions) (st : EngineState) :
    (((_reCall fn p o st).calls = []) ↔
      ∃ r, cacheGet st.cache fn.id = some r ∧
        (resolveOptions o).comparator st.heap r.params p = true ∧
        r.thisArg = resolveThis (resolveOptions o))
    ∧ (∀ r, cacheGet st.cache fn.id = some r →
        (resolveOptions o).comparator st.heap r.params p = true →
        r.thisArg = resolveThis (resolveOptions o) →
        (_reCall fn p o st).result = .ok r.result
        ∧ (_reCall fn p o st).state = st)
    ∧ (∀ p2 v, cacheGet st.cache fn.id = none →
        (_reCall fn p o st).result = .ok v →
        (resolveOptions o).comparator (_reCall fn p o st).state.heap p p2 = true →
        (_reCall fn p o st).calls.length = 1
        ∧ (_reCall fn p2 o (_reCall fn p o st).state).calls = []
        ∧ (_reCall fn p2 o (_reCall fn p o st).state).result = .ok v) := by
  refine ⟨?_, ?_, ?_⟩
  · rw [reCall_calls_empty_iff, hitCond_true_iff]
  · intro r hr hcmp hctx
    have hhit : hitCond fn p o st = true :=
      (hitCond_true_iff fn p o st).mpr ⟨r, hr, hcmp, hctx⟩
    obtain ⟨r', hr', hout⟩ := reCall_of_hit fn p o st hhit
    rw [hr] at hr'
    injection hr' with hrr
    subst hrr
    rw [hout]
    exact ⟨rfl, rfl⟩
  · intro p2 v hnone hres hcmp
    have hmiss : hitCond fn p o st = false := by
      unfold hitCond; rw [hnone]
    have hout := reCall_of_miss fn p o st hmiss
    cases himpl : fn.impl (resolveThis (resolveOptions o)) p st.heap with
    | error e =>
      rw [hout] at hres
      unfold invokeAndStore at hres
      rw [himpl] at hres
      simp at hres
    | ok pr =>
      obtain ⟨res, al⟩ := pr
      have hform : _reCall fn p o st
          = ⟨.ok res,
             ⟨cacheSet st.cache fn.id ⟨res, p, resolveThis (resolveOptions o)⟩,
              st.heap ++ al⟩,
             [(resolveThis (resolveOptions o), p)]⟩ := by
        rw [hout]; unfold invokeAndStore; rw [himpl]
      rw [hform] at hres hcmp ⊢
      have hv : res = v := by
        simpa using hres
      subst hv
      refine ⟨rfl, ?_, ?_⟩
      all_goals
        have hhit2 : hitCond fn p2 o
            ⟨cacheSet st.cache fn.id ⟨res, p, resolveThis (resolveOptions o)⟩,
             st.heap ++ al⟩ = true := by
          rw [hitCond_true_iff]
          exact ⟨⟨res, p, resolveThis (resolveOptions o)⟩,
            cacheGet_set_self st.cache fn.id _, hcmp, rfl⟩
        obtain ⟨r2, hr2, hout2⟩ := reCall_of_hit fn p2 o _ hhit2
        rw [cacheGet_set_self] at hr2
        injection hr2 with hrr2
        subst hrr2
        rw [hout2]

/-- The witness scenario for C1: a unary callable called twice with the
same snapshot reference from the pristine state is invoked once; the
second call is a hit returning the first result. -/
theorem claim1_witness :
    (_reCall fConst (.obj 0) {} ⟨[], [[.num 1]]⟩).calls.length = 1
    ∧ (_reCall fConst (.obj 0) {}
        (_reCall fConst (.obj 0) {} ⟨[], [[.num 1]]⟩).state).calls = []
    ∧ (_reCall fConst (.obj 0) {}
        (_reCall fConst (.obj 0) {} ⟨[], [[.num 1]]⟩).state).result
        = .ok (.num 42) :=
  (claim1_hit_iff_and_single_invoke fConst (.obj 0) {} ⟨[], [[.num 1]]⟩).2.2
    (.obj 0) (.num 42) rfl (by decide) (by decide)

/-- C2: when the underlying callable throws, the engine propagates the
thrown value unchanged and writes no record — the whole cache map after
the failed call equals the one before it. -/
theorem claim2_failure_propagates_without_write
    (fn : Callable) (p : JSValue) (o : PartialOptions) (st : EngineState)
    (e : JSValue)
    (hinv : (_reCall fn p o st).calls ≠ [])
    (herr : fn.impl (resolveThis (resolveOptions o)) p st.heap = .error e) :
    (_reCall fn p o st).result = .error e
    ∧ (_reCall fn p o st).state.cache = st.cache := by
  have hmiss : hitCond fn p o st = false := by
    cases hh : hitCond fn p o st
    · rfl
    · exact absurd ((reCall_calls_empty_iff fn p o st).mpr hh) hinv
  rw [reCall_of_miss fn p o st hmiss]
  unfold invokeAndStore
  rw [herr]
  exact ⟨rfl, rfl⟩

/-- The witness scenario for C2: a throwing callable leaves the empty
cache empty and the thrown value reaches the caller. -/
theorem claim2_witness :
    (_reCall fThrow (.obj 0) {} ⟨[], [[]]⟩).result = .error (.str "boom")
    ∧ (_reCall fThrow (.obj 0) {} ⟨[], [[]]⟩).state.cache = [] :=
  claim2_failure_propagates_without_write fThrow (.obj 0) {} ⟨[], [[]]⟩
    (.str "boom") (by decide) rfl

/-- C4 (evaluating the code at the failing input): `byRef` on a declared
zero-argument callable invokes it on the first call and again on the
second call — the second call is a miss, not the hit the claim
describes, because each call allocates a fresh empty argument array and
the default `Object.is` comparator distinguishes the two arrays. -/
theorem claim4_zero_arg_byref_always_misses :
    (byRef fZero [] st0).map (fun o1 => o1.calls.length) = some 1
    ∧ ((byRef fZero [] st0).bind fun o1 =>
        (byRef fZero [] o1.state).map fun o2 => o2.calls.length) = some 1 := by
  constructor
  · decide
  · decide

/-- C3 counterexample: with the shallow strategy, a call whose snapshot
`.obj 1` is a new array comparator-equal to the stored snapshot `.obj 0`
returns normally (a hit), yet the stored record afterwards still holds
the previous call's snapshot `.obj 0`, not the snapshot just used. -/
theorem claim3_counterexample :
    (_reCall fConst (.obj 1) ⟨.undefined, .undefined, some shallowEqual⟩
      ⟨[(0, ⟨.num 42, .obj 0, .global⟩)], [[.num 1], [.num 1]]⟩).result
      = .ok (.num 42)
    ∧ cacheGet (_reCall fConst (.obj 1) ⟨.undefined, .undefined, some shallowEqual⟩
        ⟨[(0, ⟨.num 42, .obj 0, .global⟩)], [[.num 1], [.num 1]]⟩).state.cache 0
      = some ⟨.num 42, .obj 0, .global⟩
    ∧ JSValue.obj 0 ≠ JSValue.obj 1 :=
  ⟨by decide, by decide, by decide⟩

/-- C3 (amended): on a hit the engine leaves the state — in particular
the stored record — unchanged, so the stored snapshot may remain an
earlier comparator-equal one; on every call that invokes the callable
and returns normally the record for that callable is replaced by exactly
that call's result, snapshot and resolved context (even on a miss caused
only by a context change), and no other callable's record changes. -/
theorem claim3_record_replacement
    (fn : Callable) (p : JSValue) (o : PartialOptions) (st : EngineState) :
    ((_reCall fn p o st).calls = [] → (_reCall fn p o st).state = st)
    ∧ (∀ v al, (_reCall fn p o st).calls ≠ [] →
        fn.impl (resolveThis (resolveOptions o)) p st.heap = .ok (v, al) →
        cacheGet (_reCall fn p o st).state.cache fn.id
          = some ⟨v, p, resolveThis (resolveOptions o)⟩
        ∧ ∀ g, g ≠ fn.id →
            cacheGet (_reCall fn p o st).state.cache g = cacheGet st.cache g) := by
  constructor
  · intro h
    obtain ⟨r, _, hout⟩ :=
      reCall_of_hit fn p o st ((reCall_calls_empty_iff fn p o st).mp h)
    rw [hout]
  · intro v al hinv hok
    have hmiss : hitCond fn p o st = false := by
      cases hh : hitCond fn p o st
      · rfl
      · exact absurd ((reCall_calls_empty_iff fn p o st).mpr hh) hinv
    rw [reCall_of_miss fn p o st hmiss]
    unfold invokeAndStore
    rw [hok]
    exact ⟨cacheGet_set_self st.cache fn.id _,
      fun g hg => cacheGet_set_ne st.cache fn.id g _ hg⟩

/-- The witness scenario for C3 (amended): a miss stores exactly the
result, snapshot and context just used. -/
theorem claim3_witness :
    cacheGet (_reCall fConst (.obj 0) {} ⟨[], [[.num 1]]⟩).state.cache 0
      = some ⟨.num 42, .obj 0, .global⟩
    ∧ ∀ g, g ≠ 0 →
        cacheGet (_reCall fConst (.obj 0) {} ⟨[], [[.num 1]]⟩).state.cache g
          = cacheGet ([] : Cache) g :=
  (claim3_record_replacement fConst (.obj 0) {} ⟨[], [[.num 1]]⟩).2
    (.num 42) [] (by decide) rfl

/-- C5 counterexample: with the explicit primary context value `false`
(falsy, but supplied) and the alias context `7`, the engine invokes the
callable with context `7` — the supplied primary value is not used, so
the priority order does not hold for falsy supplied values. -/
theorem claim5_counterexample :
    (_reCall fConst (.obj 0) ⟨.bool false, .num 7, none⟩ ⟨[], [[]]⟩).calls
      = [(.num 7, .obj 0)]
    ∧ JSValue.num 7 ≠ .bool false :=
  ⟨by decide, by decide⟩

/-- C5 (amended): exactly one bound context results per call, resolved
by the priority order restricted to truthy values — a truthy explicit
primary context wins, otherwise a truthy explicit alias context,
otherwise the process-wide global context; a falsy supplied context
value is skipped as if absent. -/
theorem claim5_truthy_priority
    (fn : Callable) (p : JSValue) (o : PartialOptions) (st : EngineState)
    (hnone : cacheGet st.cache fn.id = none) :
    (truthy o.this = true → (_reCall fn p o st).calls = [(o.this, p)])
    ∧ (truthy o.this = false → truthy o.thisArg = true →
        (_reCall fn p o st).calls = [(o.thisArg, p)])
    ∧ (truthy o.this = false → truthy o.thisArg = false →
        (_reCall fn p o st).calls = [(.global, p)]) := by
  have hmiss : hitCond fn p o st = false := by
    unfold hitCond; rw [hnone]
  have hout := reCall_of_miss fn p o st hmiss
  refine ⟨?_, ?_, ?_⟩
  · intro h1
    rw [hout, invokeAndStore_calls]
    simp [resolveThis, resolveOptions, h1]
  · intro h1 h2
    rw [hout, invokeAndStore_calls]
    simp [resolveThis, resolveOptions, h1, h2]
  · intro h1 h2
    rw [hout, invokeAndStore_calls]
    simp [resolveThis, resolveOptions, h1, h2]

/-- The witness scenario for C5 (amended): a truthy primary context is
the one the callable is invoked with. -/
theorem claim5_witness :
    (_reCall fConst (.obj 0) ⟨.num 5, .undefined, none⟩ ⟨[], [[]]⟩).calls
      = [(.num 5, .obj 0)] :=
  (claim5_truthy_priority fConst (.obj 0) ⟨.num 5, .undefined, none⟩ ⟨[], [[]]⟩
    rfl).1 (by decide)

/-- C6 counterexample: an argument array supplied to a declared
zero-argument callable in the position expecting options does not fail
fast: the call succeeds, and the callable — which reports how many
arguments it received — is invoked with a freshly allocated empty
argument list (it reports `0` although the caller supplied `[5]`). -/
theorem claim6_counterexample :
    (byRef fCount [.arr (.obj 0)] ⟨[], [[.num 5]]⟩).map
      (fun o1 => (o1.result, o1.calls))
      = some (.ok (.num 0), [(.global, .obj 1)]) := by
  decide

/-- C6 (amended): the façade performs no arity validation and cannot
fail for a declared zero-argument callable: whatever occupies the first
rest position is silently treated as the options object (an argument
array there contributes no options at all), and the callable is invoked
with a freshly allocated empty argument snapshot. -/
theorem claim6_no_arity_validation
    (fn : Callable) (rest : List RestEntry) (st : EngineState)
    (h : fn.arity = 0) :
    ∃ out, byRef fn rest st = some out
      ∧ out = _reCall fn (.obj st.heap.length)
          (entryToOptions (rest[0]?.getD .nullish)) ⟨st.cache, st.heap ++ [[]]⟩
      ∧ (∀ c, c ∈ out.calls → c.2 = .obj st.heap.length)
      ∧ (st.heap ++ [[]])[st.heap.length]? = some []
      ∧ (∀ v, entryToOptions (.arr v) = ({} : PartialOptions)) := by
  have hparse : parseRestParams fn rest st.heap
      = some (.obj st.heap.length,
              entryToOptions (rest[0]?.getD .nullish), st.heap ++ [[]]) := by
    unfold parseRestParams
    simp [h]
  refine ⟨_reCall fn (.obj st.heap.length)
      (entryToOptions (rest[0]?.getD .nullish)) ⟨st.cache, st.heap ++ [[]]⟩,
    ?_, rfl, ?_, ?_, fun v => rfl⟩
  · unfold byRef
    rw [hparse]
    rfl
  · intro c hc
    cases hh : hitCond fn (.obj st.heap.length)
        (entryToOptions (rest[0]?.getD .nullish))
        ⟨st.cache, st.heap ++ [[]]⟩ with
    | false =>
      rw [reCall_of_miss _ _ _ _ hh, invokeAndStore_calls] at hc
      rw [List.mem_singleton] at hc
      rw [hc]
    | true =>
      obtain ⟨r, _, hout⟩ := reCall_of_hit _ _ _ _ hh
      rw [hout] at hc
      simp at hc
  · simp

/-- The witness scenario for C6 (amended), at the counterexample's
input. -/
theorem claim6_witness :
    ∃ out, byRef fCount [.arr (.obj 0)] ⟨[], [[.num 5]]⟩ = some out
      ∧ out = _reCall fCount (.obj 1) {} ⟨[], [[.num 5], []]⟩
      ∧ (∀ c, c ∈ out.calls → c.2 = .obj 1)
      ∧ ([[.num 5], []] : Heap)[1]? = some []
      ∧ (∀ v, entryToOptions (.arr v) = ({} : PartialOptions)) :=
  claim6_no_arity_validation fCount [.arr (.obj 0)] ⟨[], [[.num 5]]⟩ rfl

/-- Whether a value is a reference to a composite sequence (an array on
the heap). -/
def isArrRef : JSValue → Bool
  | .obj _ => true
  | _ => false

theorem zip_all_strictEq_false (xs ys : List JSValue) (k : Nat) (w : JSValue)
    (hx : xs[k]? = some .null) (hy : ys[k]? = some w) (hw : w ≠ .null) :
    ((xs.zip ys).all fun q => strictEq q.1 q.2) = false := by
  induction xs generalizing ys k with
  | nil => simp at hx
  | cons a xs ih =>
    cases ys with
    | nil => simp at hy
    | cons b ys =>
      cases k with
      | zero =>
        rw [List.getElem?_cons_zero] at hx hy
        injection hx with hx
        injection hy with hy
        subst hx
        subst hy
        simp [strictEq, Ne.symm hw]
      | succ k =>
        rw [List.getElem?_cons_succ] at hx hy
        simp [List.zip_cons_cons, ih ys k hx hy]

/-- C7: the Shallow strategy accepts two snapshots of equal element count
with pairwise `===`-identical elements; it rejects snapshots of
different element count, rejects any pair in which a side is not a
composite sequence unless the two sides are reference-identical
(reference-identical sides are always accepted), and rejects a pair in
which some position holds `null` on exactly one side; consequently
`shallow(f,[1,2])` twice in a row hits on the second call while
`shallow(f,[1,[1,2]])` twice in a row (with a fresh nested array) misses. -/
theorem claim7_shallow_strategy :
    (∀ (heap : Heap) (a : JSValue), shallowEqual heap a a = true)
    ∧ (∀ (heap : Heap) (i j : Nat) (xs ys : List JSValue),
        heap[i]? = some xs → heap[j]? = some ys → xs.length = ys.length →
        ((xs.zip ys).all fun q => strictEq q.1 q.2) = true →
        shallowEqual heap (.obj i) (.obj j) = true)
    ∧ (∀ (heap : Heap) (i j : Nat) (xs ys : List JSValue),
        heap[i]? = some xs → heap[j]? = some ys → xs.length ≠ ys.length →
        shallowEqual heap (.obj i) (.obj j) = false)
    ∧ (∀ (heap : Heap) (a b : JSValue),
        (isArrRef a = false ∨ isArrRef b = false) → a ≠ b →
        shallowEqual heap a b = false)
    ∧ (∀ (heap : Heap) (i j : Nat) (xs ys : List JSValue) (k : Nat) (w : JSValue),
        heap[i]? = some xs → heap[j]? = some ys →
        xs[k]? = some .null → ys[k]? = some w → w ≠ .null →
        shallowEqual heap (.obj i) (.obj j) = false)
    ∧ ((shallow fConst [.arr (.obj 0)] ⟨[], [[.num 1, .num 2]]⟩).bind (fun o1 =>
        (shallow fConst [.arr (.obj o1.state.heap.length)]
          ⟨o1.state.cache, o1.state.heap ++ [[.num 1, .num 2]]⟩).map fun o2 =>
        o2.calls.length) = some 0)
    ∧ ((shallow fConst [.arr (.obj 1)]
          ⟨[], [[.num 1, .num 2], [.num 1, .obj 0]]⟩).bind (fun o1 =>
        (shallow fConst [.arr (.obj (o1.state.heap.length + 1))]
          ⟨o1.state.cache,
           o1.state.heap
             ++ [[.num 1, .num 2], [.num 1, .obj o1.state.heap.length]]⟩).map
          fun o2 => o2.calls.length) = some 1) := by
  refine ⟨?_, ?_, ?_, ?_, ?_, by decide, by decide⟩
  · intro heap a
    simp [shallowEqual, strictEq]
  · intro heap i j xs ys hx hy hlen hall
    by_cases hij : i = j
    · subst hij
      simp [shallowEqual, strictEq]
    · simp [shallowEqual, strictEq, typeofObject, hij, hx, hy, hlen]
      intro a b hab
      have h1 := List.all_eq_true.mp hall (a, b) hab
      simpa [strictEq] using h1
  · intro heap i j xs ys hx hy hne
    have hij : i ≠ j := by
      rintro rfl
      rw [hx] at hy
      injection hy with hy
      exact hne (by rw [hy])
    simp [shallowEqual, strictEq, typeofObject, hij, hx, hy, hne]
  · intro heap a b hnab hne
    cases a <;> cases b <;>
      simp_all [shallowEqual, strictEq, typeofObject, isArrRef]
  · intro heap i j xs ys k w hx hy hk hkw hwnull
    have hij : i ≠ j := by
      rintro rfl
      rw [hx] at hy
      injection hy with hy
      subst hy
      rw [hk] at hkw
      injection hkw with hkw
      exact hwnull hkw.symm
    by_cases hlen : xs.length = ys.length
    · simp [shallowEqual, strictEq, typeofObject, hij, hx, hy, hlen]
      have h2 : ¬ ((xs.zip ys).all fun q => strictEq q.1 q.2) = true := by
        simp [zip_all_strictEq_false xs ys k w hk hkw hwnull]
      simpa [List.all_eq_true, strictEq] using h2
    · simp [shallowEqual, strictEq, typeofObject, hij, hx, hy, hlen]

/-- The witness scenario for C7: two distinct one-element arrays with
`===`-equal elements are shallow-equal. -/
theorem claim7_witness :
    shallowEqual [[.num 1], [.num 1]] (.obj 0) (.obj 1) = true :=
  claim7_shallow_strategy.2.1 [[.num 1], [.num 1]] 0 1 [.num 1] [.num 1]
    rfl rfl rfl (by decide)

/-- Well-formedness of the process state: every stored snapshot that is
an object reference points below the heap frontier.  Every engine
operation allocates at the frontier and only appends to the heap, so the
condition is invariant and holds for the pristine state. -/
def WFState (st : EngineState) : Prop :=
  ∀ id r, cacheGet st.cache id = some r →
    ∀ a, r.params = .obj a → a < st.heap.length

/-- C9: a callable wrapped by `wrap` with no options, or with options
that omit a comparator, is invoked on every call of the wrapper — no
invocation is ever a cache hit, because the wrapper gathers its
arguments into a freshly allocated array at the heap frontier and the
default `Object.is` comparator cannot equate it with any stored
snapshot.  Well-formedness is preserved, so this holds along any
sequence of invocations. -/
theorem claim9_wrap_never_hits (fn : Callable) (o : Option PartialOptions)
    (args : List JSValue) (st : EngineState)
    (hwf : WFState st) (hc : (o.getD {}).comparator = none) :
    (wrap fn o args st).calls ≠ [] ∧ WFState (wrap fn o args st).state := by
  have hcmp : (resolveOptions (o.getD {})).comparator = objectIs := by
    unfold resolveOptions
    rw [hc]
    rfl
  have hmiss : hitCond fn (.obj st.heap.length) (o.getD {})
      ⟨st.cache, st.heap ++ [args]⟩ = false := by
    unfold hitCond
    cases hcg : cacheGet st.cache fn.id with
    | none => rfl
    | some r =>
      have hne : r.params ≠ .obj st.heap.length := by
        intro hp
        exact lt_irrefl _ (hwf fn.id r hcg st.heap.length hp)
      rw [hcmp]
      simp [objectIs, strictEq, hne]
  unfold wrap
  rw [reCall_of_miss _ _ _ _ hmiss]
  constructor
  · rw [invokeAndStore_calls]
    simp
  · unfold invokeAndStore
    cases himpl : fn.impl (resolveThis (resolveOptions (o.getD {})))
        (.obj st.heap.length) (EngineState.heap ⟨st.cache, st.heap ++ [args]⟩) with
    | error e =>
      intro id r hr a hp
      have := hwf id r hr a hp
      simp
      omega
    | ok pr =>
      obtain ⟨res, al⟩ := pr
      intro id r hr a hp
      by_cases hid : id = fn.id
      · subst hid
        rw [cacheGet_set_self] at hr
        injection hr with hr
        subst hr
        simp at hp
        simp
        omega
      · rw [cacheGet_set_ne _ _ _ _ hid] at hr
        have := hwf id r hr a hp
        simp
        omega

/-- The witness scenario for C9: from the pristine state, a wrapper call
with no options invokes the callable and preserves well-formedness. -/
theorem claim9_witness :
    (wrap fConst none [] st0).calls ≠ []
    ∧ WFState (wrap fConst none [] st0).state :=
  claim9_wrap_never_hits fConst none [] st0
    (by intro id r hr a hp; simp [st0, cacheGet] at hr) rfl

/-- C10: the `shallow` and `deep` entry points replace any
caller-supplied comparator with their built-in strategy (their outcome
is invariant under the comparator field of the options), `wrapShallow`
and `wrapDeep` accept no options and bake their strategy in, while
`byRef` and the generic `wrap` pass the caller's options — comparator
included — through to the engine unchanged; concretely, with a record
cached under snapshot `[1]` and a new snapshot `[2]`, an always-true
custom comparator makes `byRef` hit but is silently ignored by
`shallow`, which misses. -/
theorem claim10_comparator_override :
    (∀ (fn : Callable) (v : JSValue) (o : PartialOptions)
        (c : Option Comparator) (st : EngineState),
      shallow fn [.arr v, .optObj { o with comparator := c }] st
        = shallow fn [.arr v, .optObj o] st)
    ∧ (∀ (fn : Callable) (v : JSValue) (o : PartialOptions)
        (c : Option Comparator) (st : EngineState),
      deep fn [.arr v, .optObj { o with comparator := c }] st
        = deep fn [.arr v, .optObj o] st)
    ∧ (∀ (fn : Callable) (args : List JSValue) (st : EngineState),
      wrapShallow fn args st
        = wrap fn (some { comparator := some shallowEqual }) args st)
    ∧ (∀ (fn : Callable) (args : List JSValue) (st : EngineState),
      wrapDeep fn args st
        = wrap fn (some { comparator := some deepEqual }) args st)
    ∧ (∀ (fn : Callable) (v : JSValue) (o : PartialOptions) (st : EngineState),
      fn.arity ≠ 0 →
      byRef fn [.arr v, .optObj o] st = some (_reCall fn v o st))
    ∧ (∀ (fn : Callable) (o : PartialOptions) (args : List JSValue)
        (st : EngineState),
      wrap fn (some o) args st
        = _reCall fn (.obj st.heap.length) o ⟨st.cache, st.heap ++ [args]⟩)
    ∧ (byRef fConst [.arr (.obj 1), .optObj alwaysTrue] stD).map
        (fun o1 => o1.calls.length) = some 0
    ∧ (shallow fConst [.arr (.obj 1), .optObj alwaysTrue] stD).map
        (fun o1 => o1.calls.length) = some 1 := by
  refine ⟨?_, ?_, fun fn args st => rfl, fun fn args st => rfl, ?_,
    fun fn o args st => rfl, by decide, by decide⟩
  · intro fn v o c st
    by_cases h : fn.arity = 0 <;>
      simp [shallow, parseRestParams, entryToOptions, h]
  · intro fn v o c st
    by_cases h : fn.arity = 0 <;>
      simp [deep, parseRestParams, entryToOptions, h]
  · intro fn v o st h
    simp [byRef, parseRestParams, entryToOptions, h]

/-- The witness scenario for C10: `byRef` hands an always-true custom
comparator through to the engine unchanged. -/
theorem claim10_witness :
    byRef fConst [.arr (.obj 1), .optObj alwaysTrue] stD
      = some (_reCall fConst (.obj 1) alwaysTrue stD) :=
  claim10_comparator_override.2.2.2.2.1 fConst (.obj 1) alwaysTrue stD
    (by decide)

end ReCall
